import Mathlib

/-!
Verification of core components of the Uno nonlinear-optimization solver.

The development shallowly embeds, over `ℚ`, the parts of the code base that
the checked properties speak about:

* `COOSymmetricMatrix` (coordinate-format symmetric matrix: `insert`,
  `add_identity_multiple`, `smallest_diagonal_entry`),
* `HessianModel::modify_inertia` (inertia-correction driver),
* `l1Relaxation` (`compute_predicted_reduction`, `solve_with_steering_rule`,
  `is_acceptable`),
* `FeasibilityRestoration::switch_phase`,
* `TrustRegionStrategy::compute_acceptable_iterate`.

External collaborators (QP solver, linear solver, globalization strategy)
are abstracted as oracle functions; side effects on them are recorded as
explicit event lists.  Machine `double` arithmetic is modelled by exact
rational arithmetic; loops are modelled by fuel-indexed recursion.
-/

namespace Uno

/-! ### COOSymmetricMatrix (src/uno/linear_algebra/COOSymmetricMatrix.cpp) -/

/-- Coordinate-list symmetric matrix: parallel arrays of row indices, column
indices, and values, plus the running nonzero count (`number_nonzeros`). -/
structure COOSymmetricMatrix where
  dimension : ℕ
  row_indices : List ℕ
  column_indices : List ℕ
  matrix : List ℚ
  number_nonzeros : ℕ
deriving DecidableEq, Repr

/-- Well-formedness: the three parallel arrays each have exactly
`number_nonzeros` elements (maintained by the C++ class). -/
def COOSymmetricMatrix.wf (m : COOSymmetricMatrix) : Prop :=
  m.row_indices.length = m.number_nonzeros ∧
  m.column_indices.length = m.number_nonzeros ∧
  m.matrix.length = m.number_nonzeros

instance (m : COOSymmetricMatrix) : Decidable m.wf := by
  unfold COOSymmetricMatrix.wf; infer_instance

/-- The `(i, j, value)` triples visited by `COOSymmetricMatrix::for_each`,
which reads positions `0 ≤ k < number_nonzeros` of the three arrays. -/
def COOSymmetricMatrix.entries (m : COOSymmetricMatrix) : List (ℕ × ℕ × ℚ) :=
  (List.range m.number_nonzeros).map
    (fun k => (m.row_indices.getD k 0, m.column_indices.getD k 0, m.matrix.getD k 0))

/-- `COOSymmetricMatrix::find`: position of the first stored entry with the
given row and column index; `number_nonzeros` if there is none. -/
def COOSymmetricMatrix.find (m : COOSymmetricMatrix) (row_index column_index : ℕ) : ℕ :=
  match (List.range m.number_nonzeros).find?
      (fun k => decide (m.row_indices.getD k 0 = row_index) &&
                decide (m.column_indices.getD k 0 = column_index)) with
  | some position => position
  | none => m.number_nonzeros

/-- `COOSymmetricMatrix::insert`: the "entry already exists" branch is
short-circuited by `if (false && position < number_nonzeros)` in the source,
so a fresh triple is always appended. -/
def COOSymmetricMatrix.insert (m : COOSymmetricMatrix) (term : ℚ)
    (row_index column_index : ℕ) : COOSymmetricMatrix :=
  let position := m.find row_index column_index
  if false && decide (position < m.number_nonzeros) then
    { m with matrix := m.matrix.set position (m.matrix.getD position 0 + term) }
  else
    { m with
      matrix := m.matrix ++ [term],
      row_indices := m.row_indices ++ [row_index],
      column_indices := m.column_indices ++ [column_index],
      number_nonzeros := m.number_nonzeros + 1 }

/-- `COOSymmetricMatrix::add_identity_multiple`: insert `multiple` at the
diagonal position `(i, i)` for every `i < dimension`, in order. -/
def COOSymmetricMatrix.add_identity_multiple (m : COOSymmetricMatrix) (multiple : ℚ) :
    COOSymmetricMatrix :=
  (List.range m.dimension).foldl (fun acc i => acc.insert multiple i i) m

/-- `COOSymmetricMatrix::smallest_diagonal_entry`: fold over the stored
entries keeping the minimum of the diagonal values; the `+∞` sentinel of the
source is modelled by `Option` (`none` = no diagonal entry seen yet), and the
final sentinel-to-`0` conversion by `Option.getD 0`. -/
def COOSymmetricMatrix.smallest_diagonal_entry (m : COOSymmetricMatrix) : ℚ :=
  (m.entries.foldl
    (fun acc e =>
      if e.1 = e.2.1 then
        match acc with
        | none => some e.2.2
        | some v => some (min v e.2.2)
      else acc)
    none).getD 0

/-- The values of the stored diagonal entries (row index = column index). -/
def COOSymmetricMatrix.diagonal_values (m : COOSymmetricMatrix) : List ℚ :=
  m.entries.filterMap (fun e => if e.1 = e.2.1 then some e.2.2 else none)

/-! ### HessianModel::modify_inertia (src/uno/ingredients/subproblem/HessianModel.hpp) -/

/-- The constant `beta = 1e-4` of `HessianModel::modify_inertia`. -/
def beta : ℚ := 1 / 10000

/-- The initial inertia term of `modify_inertia`: `double inertia = 0.;
if (smallest_diagonal_entry <= 0.) inertia = beta - smallest_diagonal_entry;`. -/
def initial_inertia (matrix : COOSymmetricMatrix) : ℚ :=
  if matrix.smallest_diagonal_entry ≤ 0 then beta - matrix.smallest_diagonal_entry else 0

/-- The matrix handed to the first factorization attempt of `modify_inertia`:
`if (0. < inertia) matrix.add_identity_multiple(inertia - previous_inertia);`
with `previous_inertia = 0`. -/
def inertia_setup_matrix (matrix : COOSymmetricMatrix) : COOSymmetricMatrix :=
  if 0 < initial_inertia matrix then
    matrix.add_identity_multiple (initial_inertia matrix - 0)
  else matrix

/-- The `while (!good_inertia)` loop of `modify_inertia`.  The outcome of
the symbolic/numerical factorization (`!matrix_is_singular() &&
number_negative_eigenvalues() == 0`) is abstracted as the oracle
`good_inertia` on the current matrix; each failed attempt doubles the
inertia term (or starts it at `beta`) and appends only the difference
`inertia - previous_inertia` to the matrix. -/
def modify_inertia_loop (good_inertia : COOSymmetricMatrix → Bool) :
    ℕ → ℚ → COOSymmetricMatrix → COOSymmetricMatrix
  | 0, _, matrix => matrix
  | fuel + 1, inertia, matrix =>
    if good_inertia matrix then matrix
    else
      let new_inertia := if inertia = 0 then beta else 2 * inertia
      modify_inertia_loop good_inertia fuel new_inertia
        (matrix.add_identity_multiple (new_inertia - inertia))

/-- `HessianModel::modify_inertia`: compute the initial inertia term from the
smallest diagonal entry, add it (if positive) before the first factorization,
then retry with the doubling rule until the factorization oracle accepts. -/
def modify_inertia (good_inertia : COOSymmetricMatrix → Bool) (fuel : ℕ)
    (matrix : COOSymmetricMatrix) : COOSymmetricMatrix :=
  modify_inertia_loop good_inertia fuel (initial_inertia matrix) (inertia_setup_matrix matrix)

/-! ### l1Relaxation::compute_predicted_reduction
(src/uno/ingredients/constraint_relaxation/l1Relaxation.cpp, lines 66-81) -/

/-- Modelled from the spec: `Problem::compute_constraint_violation` of a
single constraint component `v` against its bounds `[lb, ub]` (the method is
declared on `Problem`, whose implementation of the single-component overload
is not part of the provided sources): the distance of `v` to the interval. -/
def compute_constraint_violation (lb ub v : ℚ) : ℚ :=
  if v < lb then lb - v else if ub < v then v - ub else 0

/-- `dot(x, y)`: sum of products of paired components (dense model of the
sparse dot product of `Vector.hpp`). -/
def dot (x y : List ℚ) : ℚ :=
  ((x.zip y).map (fun p => p.1 * p.2)).sum

/-- `norm_1(f, n)`: the 1-norm of the values `f 0, …, f (n-1)`. -/
def norm_1 (f : ℕ → ℚ) (n : ℕ) : ℚ :=
  ((List.range n).map (fun j => |f j|)).sum

/-- The linearized constraint violation at step length `step_length`:
`norm_1` over the constraints of the violation of
`c_j(x) + step_length * dot(d, ∇c_j(x))` against `[lb_j, ub_j]`
(the `residual_function` of `l1Relaxation::compute_predicted_reduction`). -/
def linearized_constraint_violation (constraints : List ℚ)
    (constraints_jacobian : List (List ℚ)) (lb ub : List ℚ) (d : List ℚ)
    (step_length : ℚ) : ℚ :=
  norm_1
    (fun j =>
      compute_constraint_violation (lb.getD j 0) (ub.getD j 0)
        (constraints.getD j 0 + step_length * dot d (constraints_jacobian.getD j [])))
    constraints.length

/-- `l1Relaxation::compute_predicted_reduction`: at `step_length == 1.` the
source returns `current_iterate.errors.constraints +
predicted_reduction_model.evaluate(step_length)` directly; otherwise it
subtracts the linearized constraint violation at `step_length`.
`current_violation` stands for `current_iterate.errors.constraints` and
`model` for `predicted_reduction_model.evaluate`. -/
def compute_predicted_reduction (current_violation : ℚ) (constraints : List ℚ)
    (constraints_jacobian : List (List ℚ)) (lb ub : List ℚ) (d : List ℚ)
    (model : ℚ → ℚ) (step_length : ℚ) : ℚ :=
  if step_length = 1 then current_violation + model step_length
  else
    current_violation -
      linearized_constraint_violation constraints constraints_jacobian lb ub d step_length +
      model step_length

/-! ### l1Relaxation::solve_with_steering_rule
(src/uno/ingredients/constraint_relaxation/l1Relaxation.cpp, lines 124-211) -/

/-- The observable content of a `Direction` produced by one subproblem solve,
as used by the steering rule: `linRes` is
`compute_linearized_constraint_residual(direction.x)` (the sum of the elastic
components of `direction.x`), `objective` is the subproblem model value
`direction.objective`, and `objective_multiplier` the penalty parameter
stamped onto the direction after the solve. -/
structure Dir where
  linRes : ℚ
  objective : ℚ
  objective_multiplier : ℚ
deriving DecidableEq, Repr

/-- `l1Relaxation::solve_subproblem` / `l1Relaxation::resolve_subproblem`:
the external QP solve is the oracle `solver` from the objective multiplier
used to build the subproblem; afterwards the code sets
`direction.objective_multiplier` to that multiplier. -/
def solve_subproblem (solver : ℚ → Dir) (objective_multiplier : ℚ) : Dir :=
  { solver objective_multiplier with objective_multiplier := objective_multiplier }

/-- The fixed data of one `solve_with_steering_rule` call: the subproblem
solve oracle, `current_iterate.errors.constraints`, the ideal error
`compute_error(…, direction_lowest_violation.multipliers, 0.)`, and the
`l1RelaxationParameters` together with the penalty threshold. -/
structure SteeringContext where
  solver : ℚ → Dir
  current_violation : ℚ
  error_lowest_violation : ℚ
  decrease_factor : ℚ
  epsilon1 : ℚ
  epsilon2 : ℚ
  penalty_threshold : ℚ

/-- The `while (!condition2)` loop of `solve_with_steering_rule` (stages d/e):
state is `(condition1, penalty_parameter, direction, linearized_residual)`.
Each pass first makes `condition1` sticky-true if the sufficient linear
decrease holds, then tests the sufficient predicted merit decrease; when both
hold the loop exits with the current penalty and direction.  Otherwise the
penalty is divided by `decrease_factor`; if it falls below
`penalty_threshold` it is clamped to `0` and the loop exits (the direction is
left untouched), else the subproblem is re-solved and the linearized residual
recomputed.  Fuel exhaustion returns the current state. -/
def steering_loop (ctx : SteeringContext)
    (residual_lowest_violation objective_lowest_violation : ℚ) :
    ℕ → Bool → ℚ → Dir → ℚ → ℚ × Dir
  | 0, _, penalty_parameter, direction, _ => (penalty_parameter, direction)
  | fuel + 1, condition1, penalty_parameter, direction, linearized_residual =>
    let condition1' := condition1 ||
      ((decide (residual_lowest_violation = 0) && decide (linearized_residual = 0)) ||
       (!(decide (residual_lowest_violation = 0)) &&
        decide (ctx.current_violation - linearized_residual ≥
          ctx.epsilon1 * (ctx.current_violation - residual_lowest_violation))))
    if condition1' &&
        decide (ctx.current_violation - direction.objective ≥
          ctx.epsilon2 * (ctx.current_violation - objective_lowest_violation)) then
      (penalty_parameter, direction)
    else
      let penalty' := penalty_parameter / ctx.decrease_factor
      if penalty' < ctx.penalty_threshold then (0, direction)
      else
        let direction' := solve_subproblem ctx.solver penalty'
        steering_loop ctx residual_lowest_violation objective_lowest_violation
          fuel condition1' penalty' direction' direction'.linRes

/-- The result of `solve_with_steering_rule`: final penalty parameter, the
returned direction, and whether `globalization_strategy->reset()` was
invoked. -/
structure SteeringResult where
  penalty : ℚ
  direction : Dir
  didReset : Bool
deriving DecidableEq, Repr

/-- `l1Relaxation::solve_with_steering_rule`.  Stage a solves with the
current penalty; when the penalty is positive and the linearized residual is
nonzero the steering stages b-f run: solve the penalty-0 subproblem `d⁰`,
compare its residual with the current violation, either zero out the penalty
(ideal error 0) or shrink it to `min(σ, (E⁰/max(1,violation))²)` and enter
the decrease loop; finally, the globalization strategy is reset exactly when
the penalty decreased relative to the value captured on entry to the branch.
Note that `linearized_residual` fed to the loop is the residual of the
*initial* direction: the source recomputes it only inside the loop. -/
def solve_with_steering_rule (ctx : SteeringContext) (penalty_parameter : ℚ)
    (fuel : ℕ) : SteeringResult :=
  let direction := solve_subproblem ctx.solver penalty_parameter
  if 0 < penalty_parameter then
    let linearized_residual := direction.linRes
    if linearized_residual ≠ 0 then
      let current_penalty_parameter := penalty_parameter
      let direction_lowest_violation := solve_subproblem ctx.solver 0
      let residual_lowest_violation := direction_lowest_violation.linRes
      let result :=
        if ¬(0 < ctx.current_violation ∧
              residual_lowest_violation = ctx.current_violation) then
          if ctx.error_lowest_violation = 0 then (0, direction_lowest_violation)
          else
            let term := ctx.error_lowest_violation / max 1 ctx.current_violation
            let updated_penalty := min penalty_parameter (term * term)
            let direction' :=
              if updated_penalty < penalty_parameter then
                if updated_penalty = 0 then direction_lowest_violation
                else solve_subproblem ctx.solver updated_penalty
              else direction
            steering_loop ctx residual_lowest_violation
              direction_lowest_violation.objective
              fuel false updated_penalty direction' linearized_residual
        else (penalty_parameter, direction)
      { penalty := result.1, direction := result.2,
        didReset := decide (result.1 < current_penalty_parameter) }
    else { penalty := penalty_parameter, direction := direction, didReset := false }
  else { penalty := penalty_parameter, direction := direction, didReset := false }

/-! ### l1Relaxation::is_acceptable
(src/uno/ingredients/constraint_relaxation/l1Relaxation.cpp, lines 94-122) -/

/-- The observable actions performed during `l1Relaxation::is_acceptable`. -/
inductive L1Event where
  | resetStrategy
  | progressMeasuresCurrent
  | progressMeasuresTrial
  | predictedReduction
  | checkAcceptance
  | recordPenaltyStatistic
  | optimalityConditionsTrial
deriving DecidableEq, Repr

/-- `l1Relaxation::is_acceptable`: if the subproblem definition changed, the
globalization strategy is reset and the current progress measures recomputed;
a zero-norm direction is accepted outright, otherwise the trial progress
measures and the predicted reduction are computed and the globalization
strategy's `check_acceptance` (oracle `check` from the predicted reduction)
decides; on acceptance the penalty parameter is recorded in the statistics
and the optimality conditions of the trial iterate are computed. -/
def l1_is_acceptable (subproblem_definition_changed : Bool) (direction_norm : ℚ)
    (predicted_reduction : ℚ) (check : ℚ → Bool) : Bool × List L1Event :=
  let events0 :=
    if subproblem_definition_changed then
      [L1Event.resetStrategy, L1Event.progressMeasuresCurrent]
    else []
  let step :=
    if direction_norm = 0 then (true, ([] : List L1Event))
    else (check predicted_reduction,
      [L1Event.progressMeasuresTrial, L1Event.predictedReduction, L1Event.checkAcceptance])
  let events1 :=
    if step.1 then
      [L1Event.recordPenaltyStatistic, L1Event.optimalityConditionsTrial]
    else []
  (step.1, events0 ++ step.2 ++ events1)

/-! ### FeasibilityRestoration::switch_phase
(src/uno/ingredients/constraint_relaxation/FeasibilityRestoration.cpp,
lines 160-198) -/

/-- The two phases of `FeasibilityRestoration`. -/
inductive Phase where
  | OPTIMALITY
  | FEASIBILITY_RESTORATION
deriving DecidableEq, Repr

/-- The observable actions performed during
`FeasibilityRestoration::switch_phase`. -/
inductive FREvent where
  | notifyPhase2Current
  | resetPhase1
  | infeasibilityMeasuresCurrent
  | notifyPhase1Current
  | removeElasticsCurrent
  | evaluateConstraintsCurrent
  | progressMeasuresCurrent
  | progressMeasuresTrial
  | infeasibilityMeasuresTrial
  | proximalTermTrial
deriving DecidableEq, Repr

/-- `FeasibilityRestoration::switch_phase`: go from restoration to optimality
when `0 < direction.objective_multiplier` (dropping elastics from the current
iterate when the direction carries a constraint partition, then re-evaluating
constraints and progress measures); go from optimality to restoration when
`direction.objective_multiplier == 0.` (notify phase-2 of the current
iterate, reset phase-1, recompute the current iterate's infeasibility
measures, notify phase-1); finally evaluate the trial iterate's measures
according to the resulting phase.  Returns the resulting phase, the action
list, and the phase whose globalization strategy is handed back. -/
def switch_phase (current_phase : Phase) (objective_multiplier : ℚ)
    (has_constraint_partition use_proximal_term : Bool) :
    Phase × List FREvent :=
  let switched :=
    if current_phase = Phase.FEASIBILITY_RESTORATION ∧ 0 < objective_multiplier then
      (Phase.OPTIMALITY,
        (if has_constraint_partition then [FREvent.removeElasticsCurrent] else []) ++
          [FREvent.evaluateConstraintsCurrent, FREvent.progressMeasuresCurrent])
    else if current_phase = Phase.OPTIMALITY ∧ objective_multiplier = 0 then
      (Phase.FEASIBILITY_RESTORATION,
        [FREvent.notifyPhase2Current, FREvent.resetPhase1,
         FREvent.infeasibilityMeasuresCurrent, FREvent.notifyPhase1Current])
    else (current_phase, [])
  let trial_events :=
    if switched.1 = Phase.OPTIMALITY then [FREvent.progressMeasuresTrial]
    else
      [FREvent.infeasibilityMeasuresTrial] ++
        (if use_proximal_term then [FREvent.proximalTermTrial] else [])
  (switched.1, switched.2 ++ trial_events)

/-! ### TrustRegionStrategy::compute_acceptable_iterate
(src/uno/ingredients/mechanism/TrustRegionStrategy.cpp) -/

/-- The outcome of one inner trust-region iteration, abstracting the
subproblem solve and the acceptance test: the relaxation strategy accepts the
trial iterate produced by a direction of infinity-norm `norm`, rejects it, or
a `NumericalError` is raised during the evaluations. -/
inductive TROutcome where
  | accept (norm : ℚ)
  | reject (norm : ℚ)
  | numericalError
deriving DecidableEq, Repr

/-- The result of `TrustRegionStrategy::compute_acceptable_iterate`:
`success k norm` returns the trial iterate accepted at inner iteration `k`
(together with the direction norm), `tooSmall` is the terminal
`TrustRegionTooSmall` error thrown when the radius falls below `min_radius`,
and `outOfFuel` marks fuel exhaustion of the model. -/
inductive TRResult where
  | success (iteration : ℕ) (norm : ℚ)
  | tooSmall
  | outOfFuel
deriving DecidableEq, Repr

/-- The option-derived constants of `TrustRegionStrategy`. -/
structure TRParams where
  increase_factor : ℚ
  decrease_factor : ℚ
  activity_tolerance : ℚ
  min_radius : ℚ
deriving DecidableEq, Repr

/-- The `while (!termination())` loop of `compute_acceptable_iterate`
(`termination()` is `radius < min_radius`).  Each pass first checks
termination; then the inner iteration numbered `k` runs: on acceptance, the
radius is enlarged when the trust region is active
(`norm >= radius - activity_tolerance`) and the trial iterate is returned; on
rejection the radius becomes `min(radius, norm) / decrease_factor`; a
`NumericalError` is caught and the radius divided by `decrease_factor`.
Besides the result and the final radius, the list of radii at entry of each
executed loop body is returned. -/
def tr_loop (params : TRParams) (oracle : ℕ → TROutcome) :
    ℕ → ℕ → ℚ → TRResult × ℚ × List ℚ
  | _, 0, radius => (TRResult.outOfFuel, radius, [])
  | k, fuel + 1, radius =>
    if radius < params.min_radius then (TRResult.tooSmall, radius, [])
    else
      match oracle k with
      | TROutcome.accept norm =>
        let radius' :=
          if norm ≥ radius - params.activity_tolerance then
            radius * params.increase_factor
          else radius
        (TRResult.success k norm, radius', [radius])
      | TROutcome.reject norm =>
        let next := tr_loop params oracle (k + 1) fuel (min radius norm / params.decrease_factor)
        (next.1, next.2.1, radius :: next.2.2)
      | TROutcome.numericalError =>
        let next := tr_loop params oracle (k + 1) fuel (radius / params.decrease_factor)
        (next.1, next.2.1, radius :: next.2.2)

/-- `TrustRegionStrategy::compute_acceptable_iterate`, starting at inner
iteration `0` with the current radius. -/
def compute_acceptable_iterate (params : TRParams) (oracle : ℕ → TROutcome)
    (fuel : ℕ) (radius : ℚ) : TRResult × ℚ × List ℚ :=
  tr_loop params oracle 0 fuel radius

/-! ### Concrete instances used by witnesses and counterexamples -/

/-- A 2-dimensional coordinate matrix already holding an entry at `(0, 0)`,
so that a further `insert` at `(0, 0)` is a duplicate. -/
def matrix_with_duplicate : COOSymmetricMatrix := ⟨2, [0], [0], [5], 1⟩

/-- A 1-dimensional matrix whose unique diagonal entry `1/20000` lies
strictly between `0` and `beta = 1/10000`. -/
def matrix_small_diagonal : COOSymmetricMatrix :=
  COOSymmetricMatrix.insert ⟨1, [], [], [], 0⟩ (1 / 20000) 0 0

/-- A subproblem-solve oracle for the steering rule: the penalty-0 solve
returns linearized residual `1/2` and model objective `0`; every other
penalty returns residual `1` and objective `1`. -/
def steering_solver : ℚ → Dir :=
  fun penalty => if penalty = 0 then ⟨1 / 2, 0, 0⟩ else ⟨1, 1, 0⟩

/-- A steering context around `steering_solver`: current constraint violation
`1`, ideal error `2`, `decrease_factor = 10`, `epsilon1 = epsilon2 = 1/10`,
`penalty_threshold = 1/2`. -/
def steering_ctx : SteeringContext :=
  ⟨steering_solver, 1, 2, 10, 1 / 10, 1 / 10, 1 / 2⟩

/-- Trust-region parameters for the witnesses: increase factor `2`, decrease
factor `2`, activity tolerance `0`, minimal radius `1`. -/
def tr_params_ex : TRParams := ⟨2, 2, 0, 1⟩

/-- Folding the sentinel-style minimum (`none` plays `+∞`) over a list of
values; the fold kernel is the one `smallest_diagonal_entry` applies to the
diagonal entries. -/
def option_min_fold (acc : Option ℚ) (L : List ℚ) : Option ℚ :=
  L.foldl
    (fun a x =>
      match a with
      | none => some x
      | some v => some (min v x))
    acc

end Uno

namespace Uno

/-! ## Theorems -/

/-! ### C8 and C9: COOSymmetricMatrix -/

theorem coo_insert_entries (m : COOSymmetricMatrix) (hwf : m.wf) (t : ℚ) (i j : ℕ) :
    (m.insert t i j).entries = m.entries ++ [(i, j, t)] ∧
    (m.insert t i j).number_nonzeros = m.number_nonzeros + 1 ∧
    (m.insert t i j).wf := by
  obtain ⟨hr, hc, hm⟩ := hwf
  unfold COOSymmetricMatrix.insert
  simp only [Bool.false_and, Bool.false_eq_true, if_false]
  refine ⟨?_, by trivial, ?_⟩
  · unfold COOSymmetricMatrix.entries
    simp only
    rw [List.range_succ, List.map_append, List.map_singleton]
    congr 1
    · apply List.map_congr_left
      intro k hk
      rw [List.mem_range] at hk
      rw [List.getD_append _ _ _ _ (by omega), List.getD_append _ _ _ _ (by omega),
        List.getD_append _ _ _ _ (by omega)]
    · rw [List.getD_append_right _ _ _ _ (by omega), List.getD_append_right _ _ _ _ (by omega),
        List.getD_append_right _ _ _ _ (by omega)]
      simp [hr, hc, hm]
  · refine ⟨?_, ?_, ?_⟩ <;> simp [hr, hc, hm]

theorem coo_foldl_insert_diag (multiple : ℚ) (L : List ℕ) :
    ∀ m : COOSymmetricMatrix, m.wf →
      (L.foldl (fun acc i => acc.insert multiple i i) m).entries =
          m.entries ++ L.map (fun i => (i, i, multiple)) ∧
      (L.foldl (fun acc i => acc.insert multiple i i) m).number_nonzeros =
          m.number_nonzeros + L.length ∧
      (L.foldl (fun acc i => acc.insert multiple i i) m).wf := by
  induction L with
  | nil => intro m hwf; simpa using hwf
  | cons a L ih =>
    intro m hwf
    obtain ⟨he, hn, hw⟩ := coo_insert_entries m hwf multiple a a
    obtain ⟨ihe, ihn, ihw⟩ := ih (m.insert multiple a a) hw
    refine ⟨?_, ?_, ?_⟩
    · simp only [List.foldl_cons, List.map_cons]
      rw [ihe, he]
      simp
    · simp only [List.foldl_cons, List.length_cons]
      rw [ihn, hn]
      omega
    · simpa using ihw

/-- C8: `COOSymmetricMatrix::insert` always appends a fresh `(row, column,
value)` triple and increments the nonzero count by one — even when an entry
with the same `(row, column)` pair is already stored, since the merge branch
is short-circuited by `if (false && …)` — and consequently
`add_identity_multiple(δ)` appends exactly `dimension` diagonal entries of
value `δ`, increasing the nonzero count by `dimension`. -/
theorem coo_insert_always_appends (m : COOSymmetricMatrix) (hwf : m.wf)
    (t : ℚ) (i j : ℕ) (multiple : ℚ) :
    (m.insert t i j).entries = m.entries ++ [(i, j, t)] ∧
    (m.insert t i j).number_nonzeros = m.number_nonzeros + 1 ∧
    (m.add_identity_multiple multiple).entries =
      m.entries ++ (List.range m.dimension).map (fun k => (k, k, multiple)) ∧
    (m.add_identity_multiple multiple).number_nonzeros =
      m.number_nonzeros + m.dimension := by
  obtain ⟨he, hn, -⟩ := coo_insert_entries m hwf t i j
  obtain ⟨ge, gn, -⟩ := coo_foldl_insert_diag multiple (List.range m.dimension) m hwf
  exact ⟨he, hn, ge, by simpa using gn⟩

/-- Witness for C8: inserting value `3` at `(0, 0)` into a matrix that
already stores an entry at `(0, 0)` appends a duplicate triple. -/
theorem coo_insert_always_appends_witness :
    matrix_with_duplicate.wf ∧
    ((matrix_with_duplicate.insert 3 0 0).entries =
        matrix_with_duplicate.entries ++ [(0, 0, 3)] ∧
      (matrix_with_duplicate.insert 3 0 0).number_nonzeros =
        matrix_with_duplicate.number_nonzeros + 1 ∧
      (matrix_with_duplicate.add_identity_multiple 3).entries =
        matrix_with_duplicate.entries ++
          (List.range matrix_with_duplicate.dimension).map (fun k => (k, k, 3)) ∧
      (matrix_with_duplicate.add_identity_multiple 3).number_nonzeros =
        matrix_with_duplicate.number_nonzeros + matrix_with_duplicate.dimension) :=
  ⟨by decide, coo_insert_always_appends matrix_with_duplicate (by decide) 3 0 0 3⟩

theorem coo_fold_eq_option_min_fold (E : List (ℕ × ℕ × ℚ)) :
    ∀ acc : Option ℚ,
      E.foldl
        (fun acc e =>
          if e.1 = e.2.1 then
            match acc with
            | none => some e.2.2
            | some v => some (min v e.2.2)
          else acc)
        acc =
      option_min_fold acc (E.filterMap (fun e => if e.1 = e.2.1 then some e.2.2 else none)) := by
  induction E with
  | nil => intro acc; rfl
  | cons e E ih =>
    intro acc
    by_cases h : e.1 = e.2.1
    · simp only [List.foldl_cons, List.filterMap_cons, if_pos h]
      rw [ih]
      rfl
    · simp only [List.foldl_cons, List.filterMap_cons, if_neg h]
      exact ih acc

theorem option_min_fold_some (L : List ℚ) :
    ∀ a : ℚ, ∃ w, option_min_fold (some a) L = some w ∧ w ≤ a ∧
      (w = a ∨ w ∈ L) ∧ ∀ v ∈ L, w ≤ v := by
  induction L with
  | nil => intro a; exact ⟨a, rfl, le_refl a, Or.inl rfl, by simp⟩
  | cons x L ih =>
    intro a
    obtain ⟨w, hw, hwa, hmem, hmin⟩ := ih (min a x)
    refine ⟨w, hw, le_trans hwa (min_le_left a x), ?_, ?_⟩
    · rcases hmem with h | h
      · rcases le_total a x with hax | hxa
        · exact Or.inl (by rw [h, min_eq_left hax])
        · exact Or.inr (by simp [h, min_eq_right hxa])
      · exact Or.inr (List.mem_cons_of_mem x h)
    · intro v hv
      rcases List.mem_cons.mp hv with h | h
      · exact h ▸ le_trans hwa (min_le_right a x)
      · exact hmin v h

/-- C9: `COOSymmetricMatrix::smallest_diagonal_entry` returns the minimum
value among all stored entries whose row index equals their column index, and
returns `0` when no diagonal entry is stored at all. -/
theorem coo_smallest_diagonal_entry_spec (m : COOSymmetricMatrix) :
    (m.diagonal_values = [] → m.smallest_diagonal_entry = 0) ∧
    (m.diagonal_values ≠ [] →
      m.smallest_diagonal_entry ∈ m.diagonal_values ∧
      ∀ v ∈ m.diagonal_values, m.smallest_diagonal_entry ≤ v) := by
  have key : m.smallest_diagonal_entry = (option_min_fold none m.diagonal_values).getD 0 := by
    unfold COOSymmetricMatrix.smallest_diagonal_entry COOSymmetricMatrix.diagonal_values
    rw [coo_fold_eq_option_min_fold]
  constructor
  · intro h
    rw [key, h]
    rfl
  · intro h
    match hd : m.diagonal_values with
    | [] => exact absurd hd h
    | x :: L =>
      have hstep : option_min_fold none (x :: L) = option_min_fold (some x) L := rfl
      obtain ⟨w, hw, hwa, hmem, hmin⟩ := option_min_fold_some L x
      have hval : m.smallest_diagonal_entry = w := by
        rw [key, hd, hstep, hw]
        rfl
      constructor
      · rw [hval]
        rcases hmem with hh | hh
        · exact hh ▸ List.mem_cons_self x L
        · exact List.mem_cons_of_mem x hh
      · intro v hv
        rw [hval]
        rcases List.mem_cons.mp hv with hh | hh
        · exact hh ▸ hwa
        · exact hmin v hh

/-- Witness for C9: the matrix with a single diagonal entry `1/20000` has a
nonempty diagonal, and `smallest_diagonal_entry` is a stored diagonal value
below all stored diagonal values. -/
theorem coo_smallest_diagonal_entry_spec_witness :
    matrix_small_diagonal.diagonal_values ≠ [] ∧
    matrix_small_diagonal.smallest_diagonal_entry ∈ matrix_small_diagonal.diagonal_values ∧
    ∀ v ∈ matrix_small_diagonal.diagonal_values,
      matrix_small_diagonal.smallest_diagonal_entry ≤ v := by
  have h : matrix_small_diagonal.diagonal_values ≠ [] := by
    simp [matrix_small_diagonal, COOSymmetricMatrix.diagonal_values,
      COOSymmetricMatrix.entries, COOSymmetricMatrix.insert, COOSymmetricMatrix.find,
      List.range_succ]
  exact ⟨h, (coo_smallest_diagonal_entry_spec matrix_small_diagonal).2 h⟩

/-! ### C2: HessianModel::modify_inertia -/

/-- C2 counterexample: the matrix whose only diagonal entry is
`1/20000 ∈ (0, beta)`.  The claimed initial regularization
`max(0, beta - min_diag) = 1/20000` is strictly positive, but the source
initializes the inertia term to `0` (the guard is `smallest_diagonal_entry <= 0`,
not `< beta`) and adds nothing before the first factorization. -/
theorem modify_inertia_initial_counterexample :
    initial_inertia matrix_small_diagonal ≠
      max 0 (beta - matrix_small_diagonal.smallest_diagonal_entry) ∧
    initial_inertia matrix_small_diagonal = 0 ∧
    max 0 (beta - matrix_small_diagonal.smallest_diagonal_entry) = 1 / 20000 ∧
    inertia_setup_matrix matrix_small_diagonal = matrix_small_diagonal := by
  have hs : matrix_small_diagonal.smallest_diagonal_entry = 1 / 20000 := by
    norm_num [matrix_small_diagonal, COOSymmetricMatrix.insert, COOSymmetricMatrix.find,
      COOSymmetricMatrix.smallest_diagonal_entry, COOSymmetricMatrix.entries,
      List.range_succ]
  have hi : initial_inertia matrix_small_diagonal = 0 := by
    rw [initial_inertia, hs]
    norm_num
  have hmax : max 0 (beta - matrix_small_diagonal.smallest_diagonal_entry) = 1 / 20000 := by
    rw [hs, beta]
    norm_num
  refine ⟨?_, hi, hmax, ?_⟩
  · rw [hi, hmax]
    norm_num
  · rw [inertia_setup_matrix, hi]
    norm_num

/-- C2 (amended): the initial inertia term of `modify_inertia` is
`beta - min_diag(H)` exactly when `min_diag(H) ≤ 0` (in which regime it
agrees with the claimed `max(0, beta - min_diag(H))` and the strictly
positive term is added to the matrix before the first factorization) and `0`
when `0 < min_diag(H)` (nothing added); after every failed factorization the
term becomes `beta` if it was `0` and twice its value otherwise, and only the
difference from the previously added value is appended to the matrix. -/
theorem modify_inertia_spec (m : COOSymmetricMatrix)
    (good_inertia : COOSymmetricMatrix → Bool) (inertia : ℚ) (fuel : ℕ) :
    (m.smallest_diagonal_entry ≤ 0 →
      initial_inertia m = beta - m.smallest_diagonal_entry ∧
      initial_inertia m = max 0 (beta - m.smallest_diagonal_entry) ∧
      inertia_setup_matrix m = m.add_identity_multiple (beta - m.smallest_diagonal_entry)) ∧
    (0 < m.smallest_diagonal_entry →
      initial_inertia m = 0 ∧ inertia_setup_matrix m = m) ∧
    (good_inertia m = false →
      modify_inertia_loop good_inertia (fuel + 1) inertia m =
        modify_inertia_loop good_inertia fuel
          (if inertia = 0 then beta else 2 * inertia)
          (m.add_identity_multiple ((if inertia = 0 then beta else 2 * inertia) - inertia))) := by
  refine ⟨?_, ?_, ?_⟩
  · intro h
    have hpos : 0 < beta - m.smallest_diagonal_entry := by
      have : 0 < beta := by norm_num [beta]
      linarith
    have hi : initial_inertia m = beta - m.smallest_diagonal_entry := by
      rw [initial_inertia, if_pos h]
    refine ⟨hi, ?_, ?_⟩
    · rw [hi, max_eq_right (le_of_lt hpos)]
    · rw [inertia_setup_matrix, hi, if_pos hpos, sub_zero]
  · intro h
    have hi : initial_inertia m = 0 := by
      rw [initial_inertia, if_neg (not_le.mpr h)]
    exact ⟨hi, by rw [inertia_setup_matrix, hi]; norm_num⟩
  · intro h
    rw [modify_inertia_loop, h]
    simp

/-- Witness for C2 (amended): a 1-dimensional zero-diagonal matrix with a
factorization oracle that always fails, evaluated at inertia term `0`. -/
theorem modify_inertia_spec_witness :
    ((⟨1, [0], [0], [0], 1⟩ : COOSymmetricMatrix).smallest_diagonal_entry ≤ 0 ∧
      initial_inertia ⟨1, [0], [0], [0], 1⟩ =
        beta - (⟨1, [0], [0], [0], 1⟩ : COOSymmetricMatrix).smallest_diagonal_entry) ∧
    ((fun _ : COOSymmetricMatrix => false) (⟨1, [0], [0], [0], 1⟩ : COOSymmetricMatrix) = false ∧
      modify_inertia_loop (fun _ => false) 1 0 ⟨1, [0], [0], [0], 1⟩ =
        modify_inertia_loop (fun _ => false) 0 (if (0 : ℚ) = 0 then beta else 2 * 0)
          (COOSymmetricMatrix.add_identity_multiple ⟨1, [0], [0], [0], 1⟩
            ((if (0 : ℚ) = 0 then beta else 2 * 0) - 0))) := by
  have hsd : (⟨1, [0], [0], [0], 1⟩ : COOSymmetricMatrix).smallest_diagonal_entry ≤ 0 := by
    have : (⟨1, [0], [0], [0], 1⟩ : COOSymmetricMatrix).smallest_diagonal_entry = 0 := by
      simp [COOSymmetricMatrix.smallest_diagonal_entry, COOSymmetricMatrix.entries,
        List.range_succ]
    rw [this]
  have h := modify_inertia_spec ⟨1, [0], [0], [0], 1⟩ (fun _ => false) 0 0
  exact ⟨⟨hsd, (h.1 hsd).1⟩, rfl, h.2.2 rfl⟩

/-! ### C3: l1Relaxation::compute_predicted_reduction -/

/-- C3 counterexample: at the full step `α = 1` the source takes the shortcut
`current_violation + model(1)` and does not subtract the linearized
constraint violation.  With one constraint `c = 2`, zero Jacobian row, bounds
`[0, 1]` and the zero model, the linearized violation at `α = 1` is `1`, the
claimed formula gives `-1`, but the function returns `0`. -/
theorem compute_predicted_reduction_full_step_counterexample :
    compute_predicted_reduction 0 [2] [[0]] [0] [1] [0] (fun _ => 0) 1 = 0 ∧
    linearized_constraint_violation [2] [[0]] [0] [1] [0] 1 = 1 ∧
    compute_predicted_reduction 0 [2] [[0]] [0] [1] [0] (fun _ => 0) 1 ≠
      0 - linearized_constraint_violation [2] [[0]] [0] [1] [0] 1 + (fun _ : ℚ => (0 : ℚ)) 1 := by
  have hlin : linearized_constraint_violation [2] [[0]] [0] [1] [0] 1 = 1 := by
    norm_num [linearized_constraint_violation, norm_1, compute_constraint_violation, dot,
      List.range_succ]
  have hval : compute_predicted_reduction 0 [2] [[0]] [0] [1] [0] (fun _ => 0) 1 = 0 := by
    norm_num [compute_predicted_reduction]
  refine ⟨hval, hlin, ?_⟩
  rw [hval, hlin]
  norm_num

/-- C3 (amended): for every step length `α` with `0 < α < 1`,
`compute_predicted_reduction` returns `(current violation − linearized
violation at α) + model reduction at α`, the linearized violation being
computed constraint-wise from `c(x) + α·∇c·d` against `[c_L, c_U]`; at the
full step `α = 1` the source instead returns `current violation + model(1)`,
which agrees with that formula only when the linearized violation at the full
step is zero. -/
theorem compute_predicted_reduction_spec (current_violation : ℚ)
    (constraints : List ℚ) (constraints_jacobian : List (List ℚ))
    (lb ub d : List ℚ) (model : ℚ → ℚ) (step_length : ℚ)
    (_hpos : 0 < step_length) (hlt : step_length < 1) :
    compute_predicted_reduction current_violation constraints constraints_jacobian
        lb ub d model step_length =
      current_violation -
        linearized_constraint_violation constraints constraints_jacobian lb ub d step_length +
        model step_length := by
  rw [compute_predicted_reduction, if_neg (ne_of_lt hlt)]

/-- Witness for C3 (amended): the partial step `α = 1/2` on the
counterexample data, where the formula value is `1/2·(-1) - ...` computed
explicitly. -/
theorem compute_predicted_reduction_spec_witness :
    (0 : ℚ) < 1 / 2 ∧ (1 : ℚ) / 2 < 1 ∧
    compute_predicted_reduction 0 [2] [[0]] [0] [1] [0] (fun _ => 0) (1 / 2) =
      0 - linearized_constraint_violation [2] [[0]] [0] [1] [0] (1 / 2) +
        (fun _ : ℚ => (0 : ℚ)) (1 / 2) :=
  ⟨one_half_pos, one_half_lt_one,
    compute_predicted_reduction_spec 0 [2] [[0]] [0] [1] [0] (fun _ => 0) (1 / 2)
      one_half_pos one_half_lt_one⟩

/-! ### C1: the penalty-threshold clamp of the steering loop -/

/-- C1 counterexample: a run of `solve_with_steering_rule` in which the
penalty parameter, divided by `decrease_factor`, falls below
`penalty_threshold` — so it is clamped to `0` and the loop exits — yet the
direction returned by the call is the direction solved with the previous
penalty value (objective multiplier `1`), not the `σ = 0` lowest-violation
direction `d⁰` (objective multiplier `0`, linearized residual `1/2`). -/
theorem steering_clamp_counterexample :
    solve_with_steering_rule steering_ctx 1 5 =
      ⟨0, ⟨1, 1, 1⟩, true⟩ ∧
    solve_subproblem steering_ctx.solver 0 = ⟨1 / 2, 0, 0⟩ ∧
    (solve_with_steering_rule steering_ctx 1 5).direction ≠
      solve_subproblem steering_ctx.solver 0 := by
  have h1 : solve_with_steering_rule steering_ctx 1 5 = ⟨0, ⟨1, 1, 1⟩, true⟩ := by
    norm_num [solve_with_steering_rule, steering_loop, solve_subproblem,
      steering_ctx, steering_solver]
  have h2 : solve_subproblem steering_ctx.solver 0 = ⟨1 / 2, 0, 0⟩ := by
    norm_num [solve_subproblem, steering_ctx, steering_solver]
  refine ⟨h1, h2, ?_⟩
  rw [h1, h2]
  intro h
  exact absurd (congrArg Dir.objective_multiplier h) (by norm_num)

/-- C1 (amended): in the steering loop, whenever the two sufficient-decrease
conditions fail and the penalty parameter divided by `decrease_factor` falls
below `penalty_threshold`, the penalty parameter is set to `0` and the loop
exits immediately — returning the direction currently held (the one solved
with the most recent penalty value), which is left untouched by the clamp and
need not be the lowest-violation direction `d⁰`. -/
theorem steering_loop_threshold_clamp (ctx : SteeringContext)
    (residual_lowest_violation objective_lowest_violation : ℚ) (fuel : ℕ)
    (condition1 : Bool) (penalty_parameter : ℚ) (direction : Dir)
    (linearized_residual : ℚ)
    (hfail : ((condition1 ||
        ((decide (residual_lowest_violation = 0) && decide (linearized_residual = 0)) ||
         (!(decide (residual_lowest_violation = 0)) &&
          decide (ctx.current_violation - linearized_residual ≥
            ctx.epsilon1 * (ctx.current_violation - residual_lowest_violation))))) &&
        decide (ctx.current_violation - direction.objective ≥
          ctx.epsilon2 * (ctx.current_violation - objective_lowest_violation))) = false)
    (hclamp : penalty_parameter / ctx.decrease_factor < ctx.penalty_threshold) :
    steering_loop ctx residual_lowest_violation objective_lowest_violation
        (fuel + 1) condition1 penalty_parameter direction linearized_residual =
      (0, direction) := by
  rw [steering_loop]
  simp only [hfail, Bool.false_eq_true, if_false, if_pos hclamp]

/-- Witness for C1 (amended): integer-valued steering data in which condition
2 fails and the divided penalty `1/2` falls below the threshold `1`. -/
theorem steering_loop_threshold_clamp_witness :
    ((false ||
        ((decide ((1 : ℚ) = 0) && decide ((1 : ℚ) = 0)) ||
         (!(decide ((1 : ℚ) = 0)) &&
          decide ((⟨fun _ => ⟨1, 1, 0⟩, 1, 2, 2, 1, 1, 1⟩ : SteeringContext).current_violation - 1 ≥
            (⟨fun _ => ⟨1, 1, 0⟩, 1, 2, 2, 1, 1, 1⟩ : SteeringContext).epsilon1 *
              ((⟨fun _ => ⟨1, 1, 0⟩, 1, 2, 2, 1, 1, 1⟩ : SteeringContext).current_violation - 1))))) &&
        decide ((⟨fun _ => ⟨1, 1, 0⟩, 1, 2, 2, 1, 1, 1⟩ : SteeringContext).current_violation -
            (⟨1, 1, 1⟩ : Dir).objective ≥
          (⟨fun _ => ⟨1, 1, 0⟩, 1, 2, 2, 1, 1, 1⟩ : SteeringContext).epsilon2 *
            ((⟨fun _ => ⟨1, 1, 0⟩, 1, 2, 2, 1, 1, 1⟩ : SteeringContext).current_violation - 0))) = false ∧
    (1 : ℚ) / (⟨fun _ => ⟨1, 1, 0⟩, 1, 2, 2, 1, 1, 1⟩ : SteeringContext).decrease_factor <
      (⟨fun _ => ⟨1, 1, 0⟩, 1, 2, 2, 1, 1, 1⟩ : SteeringContext).penalty_threshold ∧
    steering_loop ⟨fun _ => ⟨1, 1, 0⟩, 1, 2, 2, 1, 1, 1⟩ 1 0 1 false 1 ⟨1, 1, 1⟩ 1 =
      (0, ⟨1, 1, 1⟩) :=
  ⟨by simp, one_half_lt_one,
    steering_loop_threshold_clamp ⟨fun _ => ⟨1, 1, 0⟩, 1, 2, 2, 1, 1, 1⟩ 1 0 0 false 1
      ⟨1, 1, 1⟩ 1 (by simp) one_half_lt_one⟩

/-! ### C5: penalty monotonicity of solve_with_steering_rule -/

theorem steering_loop_penalty_le (ctx : SteeringContext)
    (residual_lowest_violation objective_lowest_violation : ℚ)
    (hdf : 1 ≤ ctx.decrease_factor) :
    ∀ (fuel : ℕ) (condition1 : Bool) (penalty_parameter : ℚ) (direction : Dir)
      (linearized_residual : ℚ), 0 ≤ penalty_parameter →
      (steering_loop ctx residual_lowest_violation objective_lowest_violation
          fuel condition1 penalty_parameter direction linearized_residual).1 ≤
          penalty_parameter ∧
      0 ≤ (steering_loop ctx residual_lowest_violation objective_lowest_violation
          fuel condition1 penalty_parameter direction linearized_residual).1 := by
  intro fuel
  induction fuel with
  | zero => intro c p d l h0; exact ⟨le_refl p, h0⟩
  | succ fuel ih =>
    intro c p d l h0
    have hdfpos : (0 : ℚ) < ctx.decrease_factor := lt_of_lt_of_le one_pos hdf
    have hdiv_nonneg : 0 ≤ p / ctx.decrease_factor := div_nonneg h0 (le_of_lt hdfpos)
    have hdiv_le : p / ctx.decrease_factor ≤ p := div_le_self h0 hdf
    rw [steering_loop]
    dsimp only
    split
    · exact ⟨le_refl p, h0⟩
    · split
      · exact ⟨h0, le_refl 0⟩
      · obtain ⟨h1, h2⟩ := ih _ (p / ctx.decrease_factor)
          (solve_subproblem ctx.solver (p / ctx.decrease_factor)) _ hdiv_nonneg
        exact ⟨le_trans h1 hdiv_le, h2⟩

/-- C5: within one call of `solve_with_steering_rule`, assuming
`decrease_factor ≥ 1` and a nonnegative entry penalty, the penalty parameter
never increases — every update takes a `min` with the entry value, divides by
`decrease_factor`, or clamps to `0` — and whenever the exit penalty is
strictly smaller than the entry penalty, `globalization_strategy->reset()` is
invoked before the call returns. -/
theorem solve_with_steering_rule_monotone (ctx : SteeringContext)
    (penalty_parameter : ℚ) (fuel : ℕ) (hdf : 1 ≤ ctx.decrease_factor)
    (h0 : 0 ≤ penalty_parameter) :
    (solve_with_steering_rule ctx penalty_parameter fuel).penalty ≤ penalty_parameter ∧
    ((solve_with_steering_rule ctx penalty_parameter fuel).penalty < penalty_parameter →
      (solve_with_steering_rule ctx penalty_parameter fuel).didReset = true) := by
  simp only [solve_with_steering_rule]
  split_ifs with h1 h2 h3 h4 h5 h6 <;> dsimp only
  · exact ⟨le_refl _, fun h => decide_eq_true h⟩
  · exact ⟨h0, fun h => decide_eq_true h⟩
  · refine ⟨le_trans ((steering_loop_penalty_le ctx _ _ hdf fuel false _ _ _
      (le_min h0 (mul_self_nonneg _))).1) (min_le_left _ _), fun h => decide_eq_true h⟩
  · refine ⟨le_trans ((steering_loop_penalty_le ctx _ _ hdf fuel false _ _ _
      (le_min h0 (mul_self_nonneg _))).1) (min_le_left _ _), fun h => decide_eq_true h⟩
  · refine ⟨le_trans ((steering_loop_penalty_le ctx _ _ hdf fuel false _ _ _
      (le_min h0 (mul_self_nonneg _))).1) (min_le_left _ _), fun h => decide_eq_true h⟩
  · exact ⟨le_refl _, fun h => absurd h (lt_irrefl _)⟩
  · exact ⟨le_refl _, fun h => absurd h (lt_irrefl _)⟩

/-- Witness for C5: the concrete steering run of the C1 counterexample, whose
`decrease_factor` is `10` and entry penalty `1`. -/
theorem solve_with_steering_rule_monotone_witness :
    (1 : ℚ) ≤ steering_ctx.decrease_factor ∧ (0 : ℚ) ≤ 1 ∧
    ((solve_with_steering_rule steering_ctx 1 5).penalty ≤ 1 ∧
      ((solve_with_steering_rule steering_ctx 1 5).penalty < 1 →
        (solve_with_steering_rule steering_ctx 1 5).didReset = true)) :=
  ⟨by simp [steering_ctx], by simp,
    solve_with_steering_rule_monotone steering_ctx 1 5 (by simp [steering_ctx]) (by simp)⟩

/-! ### C10: l1Relaxation::is_acceptable on zero-norm directions -/

/-- C10: for every direction of norm `0`, `l1Relaxation::is_acceptable`
accepts without invoking the globalization strategy's `check_acceptance` and
without computing a predicted reduction, and on this path it still records
the penalty parameter in the statistics and computes the optimality
conditions of the trial iterate. -/
theorem l1_is_acceptable_zero_norm (subproblem_definition_changed : Bool)
    (direction_norm predicted_reduction : ℚ) (check : ℚ → Bool)
    (hnorm : direction_norm = 0) :
    (l1_is_acceptable subproblem_definition_changed direction_norm
        predicted_reduction check).1 = true ∧
    L1Event.checkAcceptance ∉
      (l1_is_acceptable subproblem_definition_changed direction_norm
        predicted_reduction check).2 ∧
    L1Event.predictedReduction ∉
      (l1_is_acceptable subproblem_definition_changed direction_norm
        predicted_reduction check).2 ∧
    L1Event.recordPenaltyStatistic ∈
      (l1_is_acceptable subproblem_definition_changed direction_norm
        predicted_reduction check).2 ∧
    L1Event.optimalityConditionsTrial ∈
      (l1_is_acceptable subproblem_definition_changed direction_norm
        predicted_reduction check).2 := by
  subst hnorm
  cases subproblem_definition_changed <;>
    simp [l1_is_acceptable]

/-- Witness for C10: a zero-norm direction with a changed subproblem
definition and a strategy oracle that would reject. -/
theorem l1_is_acceptable_zero_norm_witness :
    (0 : ℚ) = 0 ∧
    ((l1_is_acceptable true 0 7 (fun _ => false)).1 = true ∧
      L1Event.checkAcceptance ∉ (l1_is_acceptable true 0 7 (fun _ => false)).2 ∧
      L1Event.predictedReduction ∉ (l1_is_acceptable true 0 7 (fun _ => false)).2 ∧
      L1Event.recordPenaltyStatistic ∈ (l1_is_acceptable true 0 7 (fun _ => false)).2 ∧
      L1Event.optimalityConditionsTrial ∈ (l1_is_acceptable true 0 7 (fun _ => false)).2) :=
  ⟨rfl, l1_is_acceptable_zero_norm true 0 7 (fun _ => false) rfl⟩

/-! ### C4: FeasibilityRestoration::switch_phase transitions -/

/-- C4: within one acceptance test, `switch_phase` moves from `OPTIMALITY` to
`FEASIBILITY_RESTORATION` exactly when the direction's objective multiplier
is `0`, and on that transition it notifies phase-2 of the current iterate,
resets phase-1, recomputes the current iterate's infeasibility progress
measures, and then notifies phase-1, in this order; it moves from
`FEASIBILITY_RESTORATION` back to `OPTIMALITY` exactly when the objective
multiplier is strictly positive. -/
theorem switch_phase_spec (objective_multiplier : ℚ)
    (has_constraint_partition use_proximal_term : Bool) :
    ((switch_phase Phase.OPTIMALITY objective_multiplier
        has_constraint_partition use_proximal_term).1 =
          Phase.FEASIBILITY_RESTORATION ↔ objective_multiplier = 0) ∧
    (objective_multiplier = 0 →
      ∃ rest,
        (switch_phase Phase.OPTIMALITY objective_multiplier
            has_constraint_partition use_proximal_term).2 =
          [FREvent.notifyPhase2Current, FREvent.resetPhase1,
           FREvent.infeasibilityMeasuresCurrent, FREvent.notifyPhase1Current] ++ rest) ∧
    ((switch_phase Phase.FEASIBILITY_RESTORATION objective_multiplier
        has_constraint_partition use_proximal_term).1 = Phase.OPTIMALITY ↔
      0 < objective_multiplier) := by
  refine ⟨?_, ?_, ?_⟩
  · by_cases h0 : objective_multiplier = 0 <;> simp [switch_phase, h0]
  · intro h
    refine ⟨if use_proximal_term then
      [FREvent.infeasibilityMeasuresTrial, FREvent.proximalTermTrial]
      else [FREvent.infeasibilityMeasuresTrial], ?_⟩
    cases use_proximal_term <;> simp [switch_phase, h]
  · by_cases hp : 0 < objective_multiplier <;> simp [switch_phase, hp]

/-- Witness for C4: a direction with objective multiplier `0` and no
constraint partition, without the proximal term. -/
theorem switch_phase_spec_witness :
    ((switch_phase Phase.OPTIMALITY 0 false false).1 =
        Phase.FEASIBILITY_RESTORATION ↔ (0 : ℚ) = 0) ∧
    ((0 : ℚ) = 0 →
      ∃ rest,
        (switch_phase Phase.OPTIMALITY 0 false false).2 =
          [FREvent.notifyPhase2Current, FREvent.resetPhase1,
           FREvent.infeasibilityMeasuresCurrent, FREvent.notifyPhase1Current] ++ rest) ∧
    ((switch_phase Phase.FEASIBILITY_RESTORATION 0 false false).1 =
        Phase.OPTIMALITY ↔ (0 : ℚ) < 0) :=
  switch_phase_spec 0 false false

/-! ### C6: the rejected-step radius update of the trust region -/

/-- C6: when the trial direction of inner iteration `k` (norm `norm`) is
rejected while the radius has not yet fallen below `min_radius`, the loop
retries with radius `min(radius, norm) / decrease_factor`; for
`decrease_factor ≥ 1` (and nonnegative norm) that next radius is bounded
above by the rejected direction's norm. -/
theorem tr_reject_radius_update (params : TRParams) (oracle : ℕ → TROutcome)
    (k fuel : ℕ) (radius norm : ℚ)
    (hterm : ¬radius < params.min_radius) (hrej : oracle k = TROutcome.reject norm)
    (hdf : 1 ≤ params.decrease_factor) (hnorm : 0 ≤ norm) (hrad : 0 ≤ radius) :
    tr_loop params oracle k (fuel + 1) radius =
      ((tr_loop params oracle (k + 1) fuel
          (min radius norm / params.decrease_factor)).1,
       (tr_loop params oracle (k + 1) fuel
          (min radius norm / params.decrease_factor)).2.1,
       radius :: (tr_loop params oracle (k + 1) fuel
          (min radius norm / params.decrease_factor)).2.2) ∧
    min radius norm / params.decrease_factor ≤ norm := by
  constructor
  · rw [tr_loop]
    rw [if_neg hterm, hrej]
  · exact le_trans (div_le_self (le_min hrad hnorm) hdf) (min_le_right radius norm)

/-- Witness for C6: radius `4`, rejected norm `2`, `decrease_factor = 2`:
the retry radius is `min(4, 2)/2 = 1 ≤ 2`. -/
theorem tr_reject_radius_update_witness :
    ¬(4 : ℚ) < tr_params_ex.min_radius ∧
    (fun _ : ℕ => TROutcome.reject 2) 0 = TROutcome.reject 2 ∧
    (tr_loop tr_params_ex (fun _ => TROutcome.reject 2) 0 1 4 =
        ((tr_loop tr_params_ex (fun _ => TROutcome.reject 2) 1 0
            (min 4 2 / tr_params_ex.decrease_factor)).1,
         (tr_loop tr_params_ex (fun _ => TROutcome.reject 2) 1 0
            (min 4 2 / tr_params_ex.decrease_factor)).2.1,
         4 :: (tr_loop tr_params_ex (fun _ => TROutcome.reject 2) 1 0
            (min 4 2 / tr_params_ex.decrease_factor)).2.2) ∧
      min 4 2 / tr_params_ex.decrease_factor ≤ 2) :=
  ⟨by simp [tr_params_ex], rfl,
    tr_reject_radius_update tr_params_ex (fun _ => TROutcome.reject 2) 0 0 4 2
      (by simp [tr_params_ex]) rfl (by simp [tr_params_ex]) (by simp) (by simp)⟩

/-! ### C7: behaviour and termination of compute_acceptable_iterate -/

theorem tr_loop_no_fuel_exhaustion (params : TRParams) (oracle : ℕ → TROutcome)
    (hdf : 1 < params.decrease_factor) :
    ∀ (fuel k : ℕ) (radius : ℚ),
      radius < params.min_radius * params.decrease_factor ^ fuel →
      (tr_loop params oracle k (fuel + 1) radius).1 ≠ TRResult.outOfFuel := by
  have hdfpos : (0 : ℚ) < params.decrease_factor := lt_trans one_pos hdf
  intro fuel
  induction fuel with
  | zero =>
    intro k radius hlt
    rw [pow_zero, mul_one] at hlt
    rw [tr_loop, if_pos hlt]
    simp
  | succ fuel ih =>
    intro k radius hlt
    have hdiv : radius / params.decrease_factor <
        params.min_radius * params.decrease_factor ^ fuel := by
      rw [div_lt_iff₀ hdfpos]
      rw [pow_succ] at hlt
      calc radius < params.min_radius * (params.decrease_factor ^ fuel *
            params.decrease_factor) := hlt
        _ = params.min_radius * params.decrease_factor ^ fuel *
            params.decrease_factor := by ring
    rw [tr_loop]
    by_cases hterm : radius < params.min_radius
    · rw [if_pos hterm]
      simp
    · rw [if_neg hterm]
      match horacle : oracle k with
      | TROutcome.accept norm => simp
      | TROutcome.reject norm =>
        have hmin : min radius norm / params.decrease_factor <
            params.min_radius * params.decrease_factor ^ fuel :=
          lt_of_le_of_lt
            ((div_le_div_iff_of_pos_right hdfpos).mpr (min_le_left radius norm)) hdiv
        exact ih (k + 1) (min radius norm / params.decrease_factor) hmin
      | TROutcome.numericalError =>
        exact ih (k + 1) (radius / params.decrease_factor) hdiv

theorem tr_loop_success_accepted (params : TRParams) (oracle : ℕ → TROutcome) :
    ∀ (fuel k : ℕ) (radius : ℚ) (iteration : ℕ) (norm : ℚ),
      (tr_loop params oracle k fuel radius).1 = TRResult.success iteration norm →
      oracle iteration = TROutcome.accept norm := by
  intro fuel
  induction fuel with
  | zero => intro k radius iteration norm h; exact absurd h (by simp [tr_loop])
  | succ fuel ih =>
    intro k radius iteration norm h
    rw [tr_loop] at h
    by_cases hterm : radius < params.min_radius
    · rw [if_pos hterm] at h
      exact absurd h (by simp)
    · rw [if_neg hterm] at h
      revert h
      match horacle : oracle k with
      | TROutcome.accept nrm =>
        intro h
        simp only [TRResult.success.injEq] at h
        obtain ⟨h1, h2⟩ := h
        rw [← h1, ← h2]
        exact horacle
      | TROutcome.reject nrm => exact fun h => ih (k + 1) _ iteration norm h
      | TROutcome.numericalError => exact fun h => ih (k + 1) _ iteration norm h

theorem tr_loop_tooSmall_radius (params : TRParams) (oracle : ℕ → TROutcome) :
    ∀ (fuel k : ℕ) (radius : ℚ),
      (tr_loop params oracle k fuel radius).1 = TRResult.tooSmall →
      (tr_loop params oracle k fuel radius).2.1 < params.min_radius := by
  intro fuel
  induction fuel with
  | zero => intro k radius h; exact absurd h (by simp [tr_loop])
  | succ fuel ih =>
    intro k radius h
    rw [tr_loop] at h ⊢
    by_cases hterm : radius < params.min_radius
    · rw [if_pos hterm] at h ⊢
      exact hterm
    · rw [if_neg hterm] at h ⊢
      revert h
      match horacle : oracle k with
      | TROutcome.accept nrm => intro h; exact absurd h (by simp)
      | TROutcome.reject nrm => exact fun h => ih (k + 1) _ h
      | TROutcome.numericalError => exact fun h => ih (k + 1) _ h

theorem tr_loop_entry_radii (params : TRParams) (oracle : ℕ → TROutcome)
    (hmin : 0 < params.min_radius) :
    ∀ (fuel k : ℕ) (radius : ℚ),
      ∀ r ∈ (tr_loop params oracle k fuel radius).2.2,
        params.min_radius ≤ r ∧ 0 < r := by
  intro fuel
  induction fuel with
  | zero => intro k radius r hr; exact absurd hr (by simp [tr_loop])
  | succ fuel ih =>
    intro k radius r hr
    rw [tr_loop] at hr
    by_cases hterm : radius < params.min_radius
    · rw [if_pos hterm] at hr
      exact absurd hr (by simp)
    · rw [if_neg hterm] at hr
      have hentry : params.min_radius ≤ radius := not_lt.mp hterm
      revert hr
      match horacle : oracle k with
      | TROutcome.accept nrm =>
        intro hr
        simp only [List.mem_singleton] at hr
        exact hr ▸ ⟨hentry, lt_of_lt_of_le hmin hentry⟩
      | TROutcome.reject nrm =>
        intro hr
        rcases List.mem_cons.mp hr with h | h
        · exact h ▸ ⟨hentry, lt_of_lt_of_le hmin hentry⟩
        · exact ih (k + 1) _ r h
      | TROutcome.numericalError =>
        intro hr
        rcases List.mem_cons.mp hr with h | h
        · exact h ▸ ⟨hentry, lt_of_lt_of_le hmin hentry⟩
        · exact ih (k + 1) _ r h

/-- C7: `compute_acceptable_iterate` (for `decrease_factor > 1` and
`min_radius > 0`): with enough fuel it never exhausts — it either returns a
trial iterate accepted by the relaxation strategy or raises the terminal
`TrustRegionTooSmall` error; its loop stops searching exactly when the radius
falls below `min_radius`, in which case it raises the error instead of
returning an iterate; every returned success was accepted by the oracle at
its iteration; the radius is at least `min_radius` (hence strictly positive)
at the entry of every executed loop body; and a `NumericalError` during an
iteration is caught and answered by dividing the radius by `decrease_factor`
and continuing, not propagated. -/
theorem tr_compute_acceptable_iterate_spec (params : TRParams)
    (oracle : ℕ → TROutcome) (hdf : 1 < params.decrease_factor)
    (hmin : 0 < params.min_radius) :
    (∀ radius : ℚ, ∃ N : ℕ, ∀ fuel : ℕ, N ≤ fuel →
        (compute_acceptable_iterate params oracle fuel radius).1 ≠ TRResult.outOfFuel) ∧
    (∀ (k fuel : ℕ) (radius : ℚ), radius < params.min_radius →
        tr_loop params oracle k (fuel + 1) radius = (TRResult.tooSmall, radius, [])) ∧
    (∀ (k fuel : ℕ) (radius : ℚ),
        (tr_loop params oracle k fuel radius).1 = TRResult.tooSmall →
        (tr_loop params oracle k fuel radius).2.1 < params.min_radius) ∧
    (∀ (fuel : ℕ) (radius : ℚ) (iteration : ℕ) (norm : ℚ),
        (compute_acceptable_iterate params oracle fuel radius).1 =
          TRResult.success iteration norm →
        oracle iteration = TROutcome.accept norm) ∧
    (∀ (k fuel : ℕ) (radius : ℚ),
        ∀ r ∈ (tr_loop params oracle k fuel radius).2.2,
          params.min_radius ≤ r ∧ 0 < r) ∧
    (∀ (k fuel : ℕ) (radius : ℚ), ¬radius < params.min_radius →
        oracle k = TROutcome.numericalError →
        tr_loop params oracle k (fuel + 1) radius =
          ((tr_loop params oracle (k + 1) fuel (radius / params.decrease_factor)).1,
           (tr_loop params oracle (k + 1) fuel (radius / params.decrease_factor)).2.1,
           radius ::
             (tr_loop params oracle (k + 1) fuel (radius / params.decrease_factor)).2.2)) := by
  have hdfpos : (0 : ℚ) < params.decrease_factor := lt_trans one_pos hdf
  refine ⟨?_, ?_, ?_, ?_, ?_, ?_⟩
  · intro radius
    obtain ⟨n, hn⟩ := pow_unbounded_of_one_lt (radius / params.min_radius) hdf
    refine ⟨n + 1, fun fuel hfuel => ?_⟩
    obtain ⟨m, rfl⟩ : ∃ m, fuel = m + 1 :=
      ⟨fuel - 1, by omega⟩
    have hm : n ≤ m := by omega
    have hlt : radius < params.min_radius * params.decrease_factor ^ m := by
      have h1 : radius < params.min_radius * params.decrease_factor ^ n := by
        rw [div_lt_iff₀ hmin] at hn
        linarith [hn]
      have h2 : params.decrease_factor ^ n ≤ params.decrease_factor ^ m :=
        pow_le_pow_right₀ (le_of_lt hdf) hm
      calc radius < params.min_radius * params.decrease_factor ^ n := h1
        _ ≤ params.min_radius * params.decrease_factor ^ m := by
            exact mul_le_mul_of_nonneg_left h2 (le_of_lt hmin)
    exact tr_loop_no_fuel_exhaustion params oracle hdf m 0 radius hlt
  · intro k fuel radius h
    rw [tr_loop, if_pos h]
  · exact fun k fuel radius => tr_loop_tooSmall_radius params oracle fuel k radius
  · exact fun fuel radius => tr_loop_success_accepted params oracle fuel 0 radius
  · exact fun k fuel radius => tr_loop_entry_radii params oracle hmin fuel k radius
  · intro k fuel radius hterm herr
    rw [tr_loop, if_neg hterm, herr]

/-- Witness for C7: parameters with `decrease_factor = 2 > 1`,
`min_radius = 1 > 0` and an oracle that always raises a numerical error. -/
theorem tr_compute_acceptable_iterate_spec_witness :
    (1 : ℚ) < tr_params_ex.decrease_factor ∧ (0 : ℚ) < tr_params_ex.min_radius ∧
    (∀ radius : ℚ, ∃ N : ℕ, ∀ fuel : ℕ, N ≤ fuel →
      (compute_acceptable_iterate tr_params_ex (fun _ => TROutcome.numericalError)
          fuel radius).1 ≠ TRResult.outOfFuel) :=
  ⟨by simp [tr_params_ex], by simp [tr_params_ex],
    (tr_compute_acceptable_iterate_spec tr_params_ex (fun _ => TROutcome.numericalError)
      (by simp [tr_params_ex]) (by simp [tr_params_ex])).1⟩

end Uno
